import Mathlib

set_option maxRecDepth 16000

/-!
Verification model of `src/Old/network/tcp/net.rs` (treescale TCP network
engine).  The engine's state (pending connection table, multiplexer
registration set, round-robin reader cursor, dispatched reader commands and
emitted application events) is embedded as a pure Lean structure, and every
operation of `TcpNetwork` is translated into a state-passing function.
Collaborator code that is not part of the source file (`TcpConn`'s byte-level
read/flush helpers, the event constants) is modelled from the specification
and marked as such in its doc comment.
-/

namespace TreeScale

/-! ### Association maps (model of `BTreeMap<Token, _>`) -/

/-- Look up a key in an association list (first match), as `BTreeMap::get`. -/
def mapFind {α : Type} (k : Nat) : List (Nat × α) → Option α
  | [] => none
  | (k1, v) :: rest => if k1 = k then some v else mapFind k rest

/-- Ordered insert with overwrite, as `BTreeMap::insert`. -/
def mapInsert {α : Type} (k : Nat) (v : α) : List (Nat × α) → List (Nat × α)
  | [] => [(k, v)]
  | (k1, v1) :: rest =>
    if k < k1 then (k, v) :: (k1, v1) :: rest
    else if k = k1 then (k, v) :: rest
    else (k1, v1) :: mapInsert k v rest

/-- Removal of a key, as `BTreeMap::remove`. -/
def mapRemove {α : Type} (k : Nat) (m : List (Nat × α)) : List (Nat × α) :=
  m.filter (fun p => p.1 ≠ k)

theorem mapFind_mapInsert_self {α : Type} (k : Nat) (v : α) (m : List (Nat × α)) :
    mapFind k (mapInsert k v m) = some v := by
  induction m with
  | nil => simp [mapInsert, mapFind]
  | cons p rest ih =>
    obtain ⟨k1, v1⟩ := p
    by_cases h1 : k < k1
    · simp [mapInsert, h1, mapFind]
    · by_cases h2 : k = k1
      · simp [mapInsert, h1, h2, mapFind]
      · simp [mapInsert, h1, h2, mapFind, Ne.symm h2, ih]

theorem mapFind_mapInsert_ne {α : Type} (k j : Nat) (v : α) (m : List (Nat × α))
    (h : j ≠ k) : mapFind j (mapInsert k v m) = mapFind j m := by
  induction m with
  | nil => simp [mapInsert, mapFind, Ne.symm h]
  | cons p rest ih =>
    obtain ⟨k1, v1⟩ := p
    by_cases h1 : k < k1
    · simp [mapInsert, h1, mapFind, Ne.symm h]
    · by_cases h2 : k = k1
      · subst h2
        simp [mapInsert, h1, mapFind, Ne.symm h]
      · by_cases h3 : k1 = j
        · subst h3
          simp [mapInsert, h1, h2, mapFind]
        · simp [mapInsert, h1, h2, mapFind, h3, ih]

theorem mapFind_mapRemove_self {α : Type} (k : Nat) (m : List (Nat × α)) :
    mapFind k (mapRemove k m) = none := by
  induction m with
  | nil => simp [mapRemove, mapFind]
  | cons p rest ih =>
    obtain ⟨k1, v1⟩ := p
    by_cases h1 : k1 = k
    · simpa [mapRemove, h1] using ih
    · simpa [mapRemove, mapFind, h1] using ih

theorem mapFind_mapRemove_ne {α : Type} (k j : Nat) (m : List (Nat × α))
    (h : j ≠ k) : mapFind j (mapRemove k m) = mapFind j m := by
  induction m with
  | nil => simp [mapRemove, mapFind]
  | cons p rest ih =>
    obtain ⟨k1, v1⟩ := p
    by_cases h1 : k1 = k
    · subst h1
      simpa [mapRemove, mapFind, Ne.symm h] using ih
    · by_cases h2 : k1 = j
      · subst h2
        simp [mapRemove, mapFind, h1]
      · simpa [mapRemove, mapFind, h1, h2] using ih

/-! ### Big-endian 32-bit integers (`byteorder::BigEndian`) -/

/-- `BigEndian::write_u32`: the four big-endian bytes of `n` (mod 2^32). -/
def u32be (n : Nat) : List Nat :=
  [n / 16777216 % 256, n / 65536 % 256, n / 256 % 256, n % 256]

/-- `BigEndian::read_u32` over a byte list (big-endian accumulation). -/
def be32 (bs : List Nat) : Nat :=
  bs.foldl (fun acc b => acc * 256 + b) 0

theorem be32_u32be (n : Nat) (h : n < 4294967296) : be32 (u32be n) = n := by
  simp only [u32be, be32, List.foldl]
  omega

theorem length_u32be (n : Nat) : (u32be n).length = 4 := by
  simp [u32be]

/-! ### Decimal ASCII text (`BigInt::to_str_radix(10)` for non-negative values) -/

/-- Fuel-driven digit extraction (structural recursion, so the kernel can
evaluate it). -/
def decDigitsLEAux : Nat → Nat → List Nat
  | _, 0 => []
  | 0, _ + 1 => []
  | fuel + 1, n + 1 => (n + 1) % 10 :: decDigitsLEAux fuel ((n + 1) / 10)

/-- Little-endian decimal digit values of `n` (empty for `0`). -/
def decDigitsLE (n : Nat) : List Nat :=
  decDigitsLEAux n n

theorem decDigitsLEAux_fuel_irrel :
    ∀ f1 : Nat, ∀ f2 n : Nat, n ≤ f1 → n ≤ f2 →
      decDigitsLEAux f1 n = decDigitsLEAux f2 n := by
  intro f1
  induction f1 with
  | zero =>
    intro f2 n h1 _
    have : n = 0 := Nat.le_zero.mp h1
    subst this
    cases f2 <;> rfl
  | succ g1 ih =>
    intro f2 n h1 h2
    cases n with
    | zero => cases f2 <;> rfl
    | succ m =>
      cases f2 with
      | zero => omega
      | succ g2 =>
        have hk1 : (m + 1) / 10 ≤ g1 := by
          have := Nat.div_lt_self (Nat.succ_pos m) (show 1 < 10 by omega)
          omega
        have hk2 : (m + 1) / 10 ≤ g2 := by
          have := Nat.div_lt_self (Nat.succ_pos m) (show 1 < 10 by omega)
          omega
        simp only [decDigitsLEAux]
        rw [ih g2 ((m + 1) / 10) hk1 hk2]

theorem decDigitsLE_eq (n : Nat) :
    decDigitsLE n = if n = 0 then [] else n % 10 :: decDigitsLE (n / 10) := by
  cases n with
  | zero => rfl
  | succ m =>
    simp only [decDigitsLE, decDigitsLEAux, Nat.succ_ne_zero, if_false]
    have hk1 : (m + 1) / 10 ≤ m := by
      have := Nat.div_lt_self (Nat.succ_pos m) (show 1 < 10 by omega)
      omega
    rw [decDigitsLEAux_fuel_irrel m ((m + 1) / 10) ((m + 1) / 10) hk1 (Nat.le_refl _)]

/-- ASCII bytes of the decimal representation of `n`, as produced by
`to_str_radix(10)` on a non-negative value (most significant digit first,
no leading zeros, `"0"` for zero). -/
def decBytes (n : Nat) : List Nat :=
  if n = 0 then [48] else ((decDigitsLE n).reverse.map (fun d => d + 48))

/-- Numeric value of a little-endian digit list. -/
def valLE : List Nat → Nat
  | [] => 0
  | d :: ds => d + 10 * valLE ds

/-- Parse a decimal ASCII byte string (the spec-side decoder for the
value part of the handshake payload). -/
def parseDecimal (bs : List Nat) : Option Nat :=
  if bs.isEmpty then none
  else if bs.all (fun b => Nat.ble 48 b && Nat.ble b 57) then
    some (bs.foldl (fun a b => a * 10 + (b - 48)) 0)
  else none

theorem valLE_decDigitsLE (n : Nat) : valLE (decDigitsLE n) = n := by
  induction n using Nat.strong_induction_on with
  | _ n ih =>
    by_cases h : n = 0
    · rw [decDigitsLE_eq]
      simp [h, valLE]
    · rw [decDigitsLE_eq]
      simp only [h, if_false, valLE]
      rw [ih (n / 10) (Nat.div_lt_self (Nat.pos_of_ne_zero h) (by omega))]
      omega

theorem decDigitsLE_lt_ten (n : Nat) : ∀ d ∈ decDigitsLE n, d < 10 := by
  induction n using Nat.strong_induction_on with
  | _ n ih =>
    by_cases h : n = 0
    · rw [decDigitsLE_eq]; simp [h]
    · rw [decDigitsLE_eq]
      simp only [h, if_false, List.mem_cons]
      intro d hd
      rcases hd with hd | hd
      · omega
      · exact ih (n / 10) (Nat.div_lt_self (Nat.pos_of_ne_zero h) (by omega)) d hd

theorem foldl_digits_reverse (l : List Nat) (a : Nat) :
    l.reverse.foldl (fun x d => x * 10 + d) a = a * 10 ^ l.length + valLE l := by
  induction l generalizing a with
  | nil => simp [valLE]
  | cons d ds ih =>
    simp only [List.reverse_cons, List.foldl_append, List.foldl_cons, List.foldl_nil,
      List.length_cons, valLE, ih]
    ring

theorem parseDecimal_decBytes (n : Nat) : parseDecimal (decBytes n) = some n := by
  by_cases h : n = 0
  · subst h
    simp [decBytes, parseDecimal, Nat.ble]
  · have hne : decDigitsLE n ≠ [] := by
      rw [decDigitsLE_eq]; simp [h]
    have hdig := decDigitsLE_lt_ten n
    simp only [decBytes, h, if_false, parseDecimal]
    have hempty : ((decDigitsLE n).reverse.map (fun d => d + 48)).isEmpty = false := by
      simp [List.isEmpty_iff, hne]
    rw [hempty]
    simp only [Bool.false_eq_true, if_false]
    have hall : ((decDigitsLE n).reverse.map (fun d => d + 48)).all
        (fun b => Nat.ble 48 b && Nat.ble b 57) = true := by
      simp only [List.all_eq_true, List.mem_map, List.mem_reverse]
      rintro b ⟨d, hd, rfl⟩
      have := hdig d hd
      simp only [Bool.and_eq_true, Nat.ble_eq]
      omega
    rw [hall]
    simp only [if_true, Option.some.injEq]
    rw [List.foldl_map]
    simp only [Nat.add_sub_cancel]
    rw [foldl_digits_reverse, valLE_decDigitsLE]
    omega

theorem decBytes_digits (n : Nat) : ∀ b ∈ decBytes n, 48 ≤ b ∧ b ≤ 57 := by
  by_cases h : n = 0
  · subst h; simp [decBytes]
  · simp only [decBytes, h, if_false, List.mem_map, List.mem_reverse]
    rintro b ⟨d, hd, rfl⟩
    have := decDigitsLE_lt_ten n d hd
    omega

/-! ### UTF-8 (`String::into_bytes` / `str::as_bytes` on Rust strings) -/

/-- UTF-8 encoding of a single Unicode code point. -/
def utf8EncodeCP (n : Nat) : List Nat :=
  if n < 128 then [n]
  else if n < 2048 then [192 + n / 64, 128 + n % 64]
  else if n < 65536 then [224 + n / 4096, 128 + n / 64 % 64, 128 + n % 64]
  else [240 + n / 262144, 128 + n / 4096 % 64, 128 + n / 64 % 64, 128 + n % 64]

/-- UTF-8 bytes of a string (Rust `String` stores exactly these). -/
def utf8Bytes (s : String) : List Nat :=
  s.data.flatMap (fun c => utf8EncodeCP c.toNat)

/-- Value of `k` continuation bytes (base-64 big-endian), `none` if any byte
is not a valid continuation byte. -/
def contsVal : Nat → List Nat → Option Nat
  | 0, _ => some 0
  | _ + 1, [] => none
  | k + 1, b :: rest =>
    if 128 ≤ b ∧ b < 192 then
      (contsVal k rest).map (fun v => (b - 128) * 64 ^ k + v)
    else none

/-- One UTF-8 code point decoded from the head of a byte list, with the
remaining bytes. -/
def utf8DecodeHead : List Nat → Option (Nat × List Nat)
  | [] => none
  | b :: rest =>
    if b < 128 then some (b, rest)
    else if b < 192 then none
    else if b < 224 then
      (contsVal 1 rest).map (fun v => ((b - 192) * 64 + v, rest.drop 1))
    else if b < 240 then
      (contsVal 2 rest).map (fun v => ((b - 224) * 4096 + v, rest.drop 2))
    else
      (contsVal 3 rest).map (fun v => ((b - 240) * 262144 + v, rest.drop 3))

/-- Fuel-driven UTF-8 decoding loop (fuel bounds the number of decoded
characters, so the recursion is structural and kernel-computable). -/
def utf8DecodeLoop : Nat → List Nat → Option (List Char)
  | _, [] => some []
  | 0, _ :: _ => none
  | fuel + 1, b :: rest =>
    match utf8DecodeHead (b :: rest) with
    | none => none
    | some (n, rest2) =>
      if hn : n.isValidChar then
        (utf8DecodeLoop fuel rest2).map (fun cs => Char.ofNatAux n hn :: cs)
      else none

/-- UTF-8 decoder over byte lists: the spec-side inverse used to read the
token and value parts of a handshake payload back into strings. -/
def utf8DecodeChars (l : List Nat) : Option (List Char) :=
  utf8DecodeLoop l.length l

/-- String-producing wrapper of the decoder. -/
def utf8DecodeString (bs : List Nat) : Option String :=
  (utf8DecodeChars bs).map String.mk

theorem charOfNatAux_toNat (c : Char) (h : c.toNat.isValidChar) :
    Char.ofNatAux c.toNat h = c := by
  apply Char.eq_of_val_eq
  apply UInt32.eq_of_toBitVec_eq
  apply BitVec.eq_of_toNat_eq
  simp [Char.ofNatAux, Char.toNat, UInt32.toNat]

theorem char_eq_pipe_of_toNat (c : Char) (h : c.toNat = 124) : c = '|' := by
  apply Char.eq_of_val_eq
  apply UInt32.eq_of_toBitVec_eq
  apply BitVec.eq_of_toNat_eq
  exact h

theorem utf8EncodeCP_ne_nil (n : Nat) : utf8EncodeCP n ≠ [] := by
  rw [utf8EncodeCP]
  split_ifs <;> simp

theorem one_le_length_utf8EncodeCP (n : Nat) : 1 ≤ (utf8EncodeCP n).length := by
  rw [utf8EncodeCP]
  split_ifs <;> simp

theorem utf8DecodeHead_encode (c : Char) (rest : List Nat) :
    utf8DecodeHead (utf8EncodeCP c.toNat ++ rest) = some (c.toNat, rest) := by
  have hv : c.toNat.isValidChar := c.valid
  have hlt : c.toNat < 1114112 := by
    rcases hv with h1 | h2
    · omega
    · omega
  by_cases h1 : c.toNat < 128
  · have e1 : utf8EncodeCP c.toNat = [c.toNat] := by
      rw [utf8EncodeCP]; simp [h1]
    rw [e1, List.cons_append, List.nil_append, utf8DecodeHead]
    rw [if_pos h1]
  · by_cases h2 : c.toNat < 2048
    · have e1 : utf8EncodeCP c.toNat = [192 + c.toNat / 64, 128 + c.toNat % 64] := by
        rw [utf8EncodeCP]; simp [h1, h2]
      have hb1 : ¬(192 + c.toNat / 64 < 128) := by omega
      have hb2 : ¬(192 + c.toNat / 64 < 192) := by omega
      have hb3 : 192 + c.toNat / 64 < 224 := by omega
      have hc2 : 128 ≤ 128 + c.toNat % 64 ∧ 128 + c.toNat % 64 < 192 := by omega
      rw [e1, List.cons_append, List.cons_append, List.nil_append, utf8DecodeHead]
      rw [if_neg hb1, if_neg hb2, if_pos hb3]
      rw [contsVal, if_pos hc2, contsVal]
      simp only [Option.map_some', List.drop_succ_cons, List.drop_zero]
      congr 2
      simp only [pow_zero, pow_one]
      omega
    · by_cases h3 : c.toNat < 65536
      · have e1 : utf8EncodeCP c.toNat
            = [224 + c.toNat / 4096, 128 + c.toNat / 64 % 64, 128 + c.toNat % 64] := by
          rw [utf8EncodeCP]; simp [h1, h2, h3]
        have hb1 : ¬(224 + c.toNat / 4096 < 128) := by omega
        have hb2 : ¬(224 + c.toNat / 4096 < 192) := by omega
        have hb3 : ¬(224 + c.toNat / 4096 < 224) := by omega
        have hb4 : 224 + c.toNat / 4096 < 240 := by omega
        have hc2 : 128 ≤ 128 + c.toNat / 64 % 64 ∧ 128 + c.toNat / 64 % 64 < 192 := by omega
        have hc3 : 128 ≤ 128 + c.toNat % 64 ∧ 128 + c.toNat % 64 < 192 := by omega
        rw [e1, List.cons_append, List.cons_append, List.cons_append, List.nil_append,
          utf8DecodeHead]
        rw [if_neg hb1, if_neg hb2, if_neg hb3, if_pos hb4]
        rw [contsVal, if_pos hc2, contsVal, if_pos hc3, contsVal]
        simp only [Option.map_some', List.drop_succ_cons, List.drop_zero]
        congr 2
        simp only [pow_zero, pow_one]
        omega
      · have e1 : utf8EncodeCP c.toNat = [240 + c.toNat / 262144, 128 + c.toNat / 4096 % 64,
            128 + c.toNat / 64 % 64, 128 + c.toNat % 64] := by
          rw [utf8EncodeCP]; simp [h1, h2, h3]
        have hb1 : ¬(240 + c.toNat / 262144 < 128) := by omega
        have hb2 : ¬(240 + c.toNat / 262144 < 192) := by omega
        have hb3 : ¬(240 + c.toNat / 262144 < 224) := by omega
        have hb4 : ¬(240 + c.toNat / 262144 < 240) := by omega
        have hc2 : 128 ≤ 128 + c.toNat / 4096 % 64 ∧ 128 + c.toNat / 4096 % 64 < 192 := by omega
        have hc3 : 128 ≤ 128 + c.toNat / 64 % 64 ∧ 128 + c.toNat / 64 % 64 < 192 := by omega
        have hc4 : 128 ≤ 128 + c.toNat % 64 ∧ 128 + c.toNat % 64 < 192 := by omega
        rw [e1, List.cons_append, List.cons_append, List.cons_append, List.cons_append,
          List.nil_append, utf8DecodeHead]
        rw [if_neg hb1, if_neg hb2, if_neg hb3, if_neg hb4]
        rw [contsVal, if_pos hc2, contsVal, if_pos hc3, contsVal, if_pos hc4, contsVal]
        simp only [Option.map_some', List.drop_succ_cons, List.drop_zero]
        congr 2
        simp only [pow_zero, pow_one, show (64:Nat) ^ 2 = 4096 from by norm_num]
        omega

theorem utf8DecodeLoop_nil (fuel : Nat) : utf8DecodeLoop fuel [] = some [] := by
  cases fuel <;> rw [utf8DecodeLoop]

/-- Decoding UTF-8-encoded characters followed by any suffix peels the
characters off one by one, given enough fuel. -/
theorem utf8DecodeLoop_encode_append (cs : List Char) (rest : List Nat) :
    ∀ fuel, cs.length ≤ fuel →
    utf8DecodeLoop fuel (cs.flatMap (fun c => utf8EncodeCP c.toNat) ++ rest)
      = (utf8DecodeLoop (fuel - cs.length) rest).map (fun t => cs ++ t) := by
  induction cs with
  | nil =>
    intro fuel _
    simp only [List.flatMap_nil, List.nil_append, List.length_nil, Nat.sub_zero]
    cases utf8DecodeLoop fuel rest <;> simp
  | cons c cs ih =>
    intro fuel h
    have hv : c.toNat.isValidChar := c.valid
    cases fuel with
    | zero => simp at h
    | succ f =>
      simp only [List.flatMap_cons, List.append_assoc]
      obtain ⟨b, t, he⟩ : ∃ b t, utf8EncodeCP c.toNat = b :: t := by
        cases hh : utf8EncodeCP c.toNat with
        | nil => exact absurd hh (utf8EncodeCP_ne_nil c.toNat)
        | cons b t => exact ⟨b, t, rfl⟩
      have hdh : utf8DecodeHead (utf8EncodeCP c.toNat
          ++ (cs.flatMap (fun x => utf8EncodeCP x.toNat) ++ rest))
          = some (c.toNat, cs.flatMap (fun x => utf8EncodeCP x.toNat) ++ rest) :=
        utf8DecodeHead_encode c _
      rw [he] at hdh ⊢
      rw [List.cons_append, utf8DecodeLoop]
      rw [List.cons_append] at hdh
      rw [hdh]
      simp only []
      rw [dif_pos hv, charOfNatAux_toNat c hv]
      rw [ih f (by simpa using Nat.lt_succ_iff.mp (Nat.lt_of_lt_of_le (Nat.lt_succ_self _) h))]
      simp only [List.length_cons, Nat.succ_sub_succ]
      cases utf8DecodeLoop (f - cs.length) rest <;> simp

theorem length_le_length_flatMap_encode (cs : List Char) :
    cs.length ≤ (cs.flatMap (fun c => utf8EncodeCP c.toNat)).length := by
  induction cs with
  | nil => simp
  | cons c cs ih =>
    simp only [List.flatMap_cons, List.length_append, List.length_cons]
    have := one_le_length_utf8EncodeCP c.toNat
    omega

/-- UTF-8 round trip: decoding the bytes of a string yields the string. -/
theorem utf8DecodeString_utf8Bytes (s : String) :
    utf8DecodeString (utf8Bytes s) = some s := by
  have h := utf8DecodeLoop_encode_append s.data []
      ((s.data.flatMap (fun c => utf8EncodeCP c.toNat)).length)
      (length_le_length_flatMap_encode s.data)
  simp only [List.append_nil] at h
  simp only [utf8DecodeString, utf8DecodeChars, utf8Bytes, h, utf8DecodeLoop_nil]
  cases s
  simp


/-- Split a byte list at the first occurrence of `sep`. -/
def splitAtByte (sep : Nat) : List Nat → Option (List Nat × List Nat)
  | [] => none
  | b :: rest =>
    if b = sep then some ([], rest)
    else (splitAtByte sep rest).map (fun p => (b :: p.1, p.2))

theorem splitAtByte_append (sep : Nat) (l r : List Nat) (h : sep ∉ l) :
    splitAtByte sep (l ++ sep :: r) = some (l, r) := by
  induction l with
  | nil => simp [splitAtByte]
  | cons b t ih =>
    have hb : b ≠ sep := by
      intro hh
      exact h (hh ▸ List.mem_cons_self b t)
    have ht : sep ∉ t := fun hh => h (List.mem_cons_of_mem b hh)
    simp only [List.cons_append, splitAtByte, hb, if_false, List.append_eq, ih ht,
      Option.map_some']

/-- A byte below 128 occurs in a UTF-8 encoding only as the encoding of the
code point equal to it. -/
theorem mem_utf8EncodeCP_low (b n : Nat) (hb : b < 128) (h : b ∈ utf8EncodeCP n) :
    n = b := by
  by_cases h1 : n < 128
  · simp [utf8EncodeCP, h1] at h
    omega
  · by_cases h2 : n < 2048
    · simp [utf8EncodeCP, h1, h2] at h
      omega
    · by_cases h3 : n < 65536
      · simp [utf8EncodeCP, h1, h2, h3] at h
        omega
      · simp [utf8EncodeCP, h1, h2, h3] at h
        omega

/-- The separator byte 124 (`'|'`) does not occur in the UTF-8 bytes of a
string that does not contain the separator character. -/
theorem sep_not_mem_utf8Bytes (s : String) (h : ∀ c ∈ s.data, c ≠ '|') :
    124 ∉ utf8Bytes s := by
  intro hmem
  simp only [utf8Bytes, List.mem_flatMap] at hmem
  obtain ⟨c, hc, hb⟩ := hmem
  have hn : c.toNat = 124 := mem_utf8EncodeCP_low 124 c.toNat (by omega) hb
  exact h c hc (char_eq_pipe_of_toNat c hn)

/-! ### Data model of the TCP network engine (`net.rs`) -/

/-- Classification of an I/O error: `ErrorKind::WouldBlock` versus any
other (hard) error kind. -/
inductive ErrKind
  | wouldBlock
  | other
deriving DecidableEq

/-- Readiness interest a socket is registered with in the `Poll`
multiplexer. -/
inductive Readiness
  | r
  | rw
deriving DecidableEq

/-- Entry pushed by `TcpConn::add_conn_value` (socket token, peer token
string, peer value string). -/
structure ConnValueEntry where
  sockToken : Nat
  token : String
  value : String
deriving DecidableEq

/-- Connection envelope (`TcpConn`).  `socket_token`, `from_server`,
`api_version`, `conn_value` and the write queue appear in `net.rs`; the
byte-level read buffer models the partial-read state the spec attributes to
the envelope's handshake state machine. -/
structure TcpConn where
  socket_token : Nat
  from_server : Bool
  api_version : Nat
  read_buf : List Nat
  conn_value : List ConnValueEntry
  write_queue : List (List Nat)
deriving DecidableEq

/-- Modelled from the spec: a freshly wrapped socket has no version, no
identity and an empty write queue (`TcpConn::new`). -/
def TcpConn.new (sockTok : Nat) : TcpConn :=
  { socket_token := sockTok, from_server := false, api_version := 0,
    read_buf := [], conn_value := [], write_queue := [] }

/-- Modelled from the spec: `TcpConn::read_api_version` attempts to read
exactly 4 bytes; if fewer are available it keeps them buffered and reports
not-done, otherwise it sets the version from the 4 big-endian bytes. -/
def TcpConn.read_api_version (c : TcpConn) (avail : List Nat) : TcpConn × Bool :=
  let buf := c.read_buf ++ avail
  if 4 ≤ buf.length then
    ({ c with api_version := be32 (buf.take 4), read_buf := buf.drop 4 }, true)
  else
    ({ c with read_buf := buf }, false)

/-- Modelled from the spec: `TcpConn::read_token_value` reads a 4-byte
big-endian length field, then exactly that many payload bytes, splitting the
payload on the single-byte separator into `(token, value)`; partial data
reports not-done, a missing separator or undecodable text is a decode
error. -/
def TcpConn.read_token_value (c : TcpConn) (avail : List Nat) :
    Except ErrKind (TcpConn × String × String × Bool) :=
  let buf := c.read_buf ++ avail
  if buf.length < 4 then .ok ({ c with read_buf := buf }, "", "", false)
  else
    let len := be32 (buf.take 4)
    if buf.length < 4 + len then .ok ({ c with read_buf := buf }, "", "", false)
    else
      match splitAtByte 124 ((buf.drop 4).take len) with
      | none => .error .other
      | some (tb, vb) =>
        match utf8DecodeString tb, utf8DecodeString vb with
        | some tok, some v => .ok ({ c with read_buf := buf.drop (4 + len) }, tok, v, true)
        | _, _ => .error .other

/-- `TcpConn::add_conn_value`. -/
def TcpConn.add_conn_value (c : TcpConn) (sockTok : Nat) (tok v : String) : TcpConn :=
  { c with conn_value := c.conn_value ++ [⟨sockTok, tok, v⟩] }

/-- `TcpConn::pop_conn_value` (`Vec::pop` takes the last element). -/
def TcpConn.pop_conn_value (c : TcpConn) : Option ConnValueEntry :=
  c.conn_value.getLast?

/-- `TcpConn::add_writable_data` appends a buffer to the write queue. -/
def TcpConn.add_writable_data (c : TcpConn) (d : List Nat) : TcpConn :=
  { c with write_queue := c.write_queue ++ [d] }

/-- Modelled from the spec: the write-queue flush consumes whole buffers in
order as long as the socket accepts their bytes, leaving the unwritten tail
of the first buffer it cannot finish. -/
def flushQueue : List (List Nat) → Nat → List (List Nat)
  | [], _ => []
  | b :: bs, n => if b.length ≤ n then flushQueue bs (n - b.length) else b.drop n :: bs

/-- Modelled from the spec: `TcpConn::flush_write_queue` flushes as much as
the socket accepts (`n` bytes this call) and reports whether the whole
queue was written. -/
def TcpConn.flush_write_queue (c : TcpConn) (n : Nat) : TcpConn × Bool :=
  let q := flushQueue c.write_queue n
  ({ c with write_queue := q }, q.isEmpty)

/-- Application event (`Event`): only the fields the engine touches. -/
structure Event where
  name : String
  data : List Nat
  ev_from : String
deriving DecidableEq

/-- `Event::default()`. -/
def Event.default : Event :=
  { name := "", data := [], ev_from := "" }

/-- Modelled from the spec: the name constant of the on-pending-connection
notification (`EVENT_ON_PENDING_CONNECTION` lives in the event module). -/
def EVENT_ON_PENDING_CONNECTION : String := "on_pending_connection"

/-- `TcpReaderCMD` variants the engine sends. -/
inductive TcpReaderCMDKind
  | handleConnection
  | writeDataWithPath
deriving DecidableEq

/-- A `TcpReaderCommand` sent to a worker, tagged with the worker index the
round-robin selector chose. -/
structure ReaderDispatch where
  readerIdx : Nat
  cmd : TcpReaderCMDKind
  conn_value : List ConnValueEntry
  conn : List TcpConn
  tokens : List String
  event : List Event
deriving DecidableEq

/-- An `EventHandlerCommand` (always `TriggerFromEvent`) sent to the event
handler channel. -/
structure EventHandlerMsg where
  event : Event
deriving DecidableEq

/-- `TcpNetworkCMD`. -/
inductive TcpNetworkCMD
  | handleClientConnection
  | acceptPendingConnection
  | emitEvent
deriving DecidableEq

/-- `TcpNetworkCommand` (sockets stand in as their future tokens). -/
structure TcpNetworkCommand where
  cmd : TcpNetworkCMD
  socket : List Nat
  token : List String
  event : List Event
deriving DecidableEq

/-- State of `TcpNetwork`: the pending-connection table, the multiplexer
registration set, the node identity, the worker pool size and round-robin
cursor, and logs of everything sent to workers and to the event handler. -/
structure TcpNetwork where
  pending_connections : List (Nat × TcpConn)
  registered : List (Nat × Readiness)
  current_token : String
  current_value : Nat
  reader_count : Nat
  reader_channel_index : Nat
  dispatched : List ReaderDispatch
  events : List EventHandlerMsg
deriving DecidableEq

/-- `CURRENT_API_VERSION`. -/
def CURRENT_API_VERSION : Nat := 1

/-- Payload bytes `token <sep> value` built by `write_handshake_info`
(the separator `TOKEN_VALUE_SEP` is modelled from the spec scenario payload
`"a|1"` as `'|'`, byte 124). -/
def tokenValueBytes (token : String) (value : Nat) : List Nat :=
  utf8Bytes token ++ [124] ++ decBytes value

/-- The full handshake frame queued by `write_handshake_info`: version,
payload length (`as u32`), payload. -/
def handshakeFrame (token : String) (value : Nat) : List Nat :=
  u32be CURRENT_API_VERSION ++ u32be (tokenValueBytes token value).length
    ++ tokenValueBytes token value

/-- `TcpNetwork::write_handshake_info`. -/
def TcpNetwork.write_handshake_info (net : TcpNetwork) (conn : TcpConn) : TcpConn :=
  conn.add_writable_data (handshakeFrame net.current_token net.current_value)

/-- `TcpNetwork::add_pending_conn`. -/
def TcpNetwork.add_pending_conn (net : TcpNetwork) (sockTok : Nat) (from_client : Bool) :
    TcpNetwork :=
  let conn := { TcpConn.new sockTok with from_server := !from_client }
  let conn := if from_client then net.write_handshake_info conn else conn
  let ready := if from_client then Readiness.rw else Readiness.r
  { net with registered := mapInsert sockTok ready net.registered,
             pending_connections := mapInsert sockTok conn net.pending_connections }

/-- `TcpNetwork::acceptable`: the accept loop admits each accepted socket
as a pending connection (`from_client = false`). -/
def TcpNetwork.acceptable (net : TcpNetwork) (socks : List Nat) : TcpNetwork :=
  socks.foldl (fun n s => n.add_pending_conn s false) net

/-- `TcpNetwork::close_connection`. -/
def TcpNetwork.close_connection (net : TcpNetwork) (tok : Nat) : TcpNetwork :=
  { net with pending_connections := mapRemove tok net.pending_connections }

/-- `TcpNetwork::get_reader`: round-robin reader selection; indexing an
empty channel vector panics (`none`). -/
def TcpNetwork.get_reader (net : TcpNetwork) : Option (Nat × TcpNetwork) :=
  let i := if net.reader_channel_index ≥ net.reader_count then 0
           else net.reader_channel_index
  if net.reader_count = 0 then none
  else some (i, { net with reader_channel_index := i + 1 })

/-- `TcpNetwork::emit`. -/
def TcpNetwork.emit (net : TcpNetwork) (ev : Event) (tokens : List String) :
    Option TcpNetwork :=
  net.get_reader.map (fun p =>
    { p.2 with dispatched := p.2.dispatched
        ++ [{ readerIdx := p.1, cmd := TcpReaderCMDKind.writeDataWithPath,
              conn_value := [], conn := [], tokens := tokens, event := [ev] }] })

/-- `TcpNetwork::accept_conn`. -/
def TcpNetwork.accept_conn (net : TcpNetwork) (tok : Nat) : Option TcpNetwork :=
  match mapFind tok net.pending_connections with
  | none => some net
  | some conn =>
    let net1 := { net with pending_connections := mapRemove tok net.pending_connections }
    let conn1 := if conn.from_server then net1.write_handshake_info conn else conn
    let net2 := { net1 with registered := mapRemove tok net1.registered }
    net2.get_reader.map (fun p =>
      { p.2 with dispatched := p.2.dispatched
          ++ [{ readerIdx := p.1, cmd := TcpReaderCMDKind.handleConnection,
                conn_value := match conn1.pop_conn_value with
                  | some c => [c]
                  | none => [],
                conn := [conn1], tokens := [], event := [] }] })

/-- Identity-payload stage of `TcpNetwork::readable` (lines 345-385 of
`net.rs`): the pending entry for `tok` has already been removed into
`conn`.  Any read error closes the connection; a complete identity
deregisters the socket and either notifies the application (`from_server`)
or accepts the connection immediately. -/
def TcpNetwork.readable_stage2 (net1 : TcpNetwork) (tok : Nat) (conn : TcpConn)
    (input : Except ErrKind (List Nat)) : Option TcpNetwork :=
  match input with
  | .error _ => some net1
  | .ok avail =>
    match conn.read_token_value avail with
    | .error _ => some net1
    | .ok (conn3, conn_token, conn_value, is_done) =>
      if is_done then
        let net2 := { net1 with registered := mapRemove tok net1.registered }
        let conn4 := conn3.add_conn_value tok conn_token conn_value
        if conn4.from_server then
          let ev : Event := { name := EVENT_ON_PENDING_CONNECTION,
                              data := utf8Bytes conn_value, ev_from := conn_token }
          some { net2 with
                 events := net2.events ++ [{ event := ev }],
                 pending_connections := mapInsert tok conn4 net2.pending_connections }
        else
          let net3 := { net2 with
                        pending_connections := mapInsert tok conn4 net2.pending_connections }
          net3.accept_conn tok
      else some net1

/-- `TcpNetwork::readable`.  `input` is the outcome the socket offers this
readiness event: an error of some kind, or newly available bytes. -/
def TcpNetwork.readable (net : TcpNetwork) (tok : Nat)
    (input : Except ErrKind (List Nat)) : Option TcpNetwork :=
  match mapFind tok net.pending_connections with
  | none => some net
  | some conn =>
    let net1 := { net with pending_connections := mapRemove tok net.pending_connections }
    if conn.api_version = 0 then
      match input with
      | .error k =>
        if k = ErrKind.wouldBlock then
          some { net1 with
                 pending_connections := mapInsert tok conn net1.pending_connections }
        else some net1
      | .ok avail =>
        let vres := conn.read_api_version avail
        if vres.2 then
          net1.readable_stage2 tok vres.1 (.ok [])
        else
          some { net1 with
                 pending_connections := mapInsert tok vres.1 net1.pending_connections }
    else
      net1.readable_stage2 tok conn input

/-- `TcpNetwork::writable`.  `input` is the socket's behaviour this
writability event: an error, or the number of bytes it accepts. -/
def TcpNetwork.writable (net : TcpNetwork) (tok : Nat) (input : Except ErrKind Nat) :
    TcpNetwork :=
  match mapFind tok net.pending_connections with
  | none => net
  | some conn =>
    let net1 := { net with pending_connections := mapRemove tok net.pending_connections }
    match input with
    | .error _ => net1
    | .ok n =>
      let fres := conn.flush_write_queue n
      if fres.2 then
        { net1 with registered := mapInsert tok Readiness.r net1.registered,
                    pending_connections := mapInsert tok fres.1 net1.pending_connections }
      else
        { net1 with pending_connections := mapInsert tok fres.1 net1.pending_connections }

/-- The `AcceptPendingConnection` scan of `notify`: first pending entry (in
key order) whose learned identity is non-empty and whose first identity
token equals `command.token[0]`; indexing `command.token[0]` with an empty
command token list panics (`none`); `some 0` means no match
(`conn_token` stays `Token(0)`). -/
def scanPending (cmdTokens : List String) : List (Nat × TcpConn) → Option Nat
  | [] => some 0
  | (t, conn) :: rest =>
    match conn.conn_value with
    | [] => scanPending cmdTokens rest
    | cv :: _ =>
      match cmdTokens with
      | [] => none
      | c0 :: _ => if cv.token = c0 then some t else scanPending cmdTokens rest

/-- `TcpNetwork::notify` (command dispatch); `none` models a panic. -/
def TcpNetwork.notify (net : TcpNetwork) (command : TcpNetworkCommand) :
    Option TcpNetwork :=
  match command.cmd with
  | TcpNetworkCMD.handleClientConnection =>
    match command.socket.getLast? with
    | none => some net
    | some s => some (net.add_pending_conn s true)
  | TcpNetworkCMD.acceptPendingConnection =>
    match scanPending command.token net.pending_connections with
    | none => none
    | some connTok => if connTok ≠ 0 then net.accept_conn connTok else some net
  | TcpNetworkCMD.emitEvent =>
    match command.event.getLast? with
    | none => some net
    | some ev => net.emit ev command.token

/-- One readiness event delivered by a wakeup of the poll loop in
`TcpNetwork::run` (the command channel is drained one command per
`cmdEv`; `acceptEv` is readability of the listener, with the sockets the
accept loop yields). -/
inductive LoopEvent
  | cmdEv (c : TcpNetworkCommand)
  | errorHupEv (tok : Nat)
  | readableEv (tok : Nat) (input : Except ErrKind (List Nat))
  | writableEv (tok : Nat) (input : Except ErrKind Nat)
  | acceptEv (socks : List Nat)

/-- The per-event body of the poll loop in `TcpNetwork::run`; `none` models
process exit (error/hangup readiness on the listener token) or a panic
inside `notify`/`get_reader`. -/
def TcpNetwork.loopStep (net : TcpNetwork) : LoopEvent → Option TcpNetwork
  | LoopEvent.cmdEv c => net.notify c
  | LoopEvent.errorHupEv tok =>
    if tok = 0 then none else some (net.close_connection tok)
  | LoopEvent.readableEv tok input => net.readable tok input
  | LoopEvent.writableEv tok input => some (net.writable tok input)
  | LoopEvent.acceptEv socks => some (net.acceptable socks)

/-- Iterated event-loop processing. -/
def TcpNetwork.loopSteps (net : TcpNetwork) : List LoopEvent → Option TcpNetwork
  | [] => some net
  | e :: es =>
    match net.loopStep e with
    | none => none
    | some n2 => n2.loopSteps es

/-! ### Claim theorems -/

theorem mapFind_mem {α : Type} (k : Nat) (v : α) (m : List (Nat × α))
    (h : mapFind k m = some v) : (k, v) ∈ m := by
  induction m with
  | nil => simp [mapFind] at h
  | cons p rest ih =>
    obtain ⟨k1, v1⟩ := p
    by_cases h1 : k1 = k
    · subst h1
      simp [mapFind] at h
      simp [h]
    · simp [mapFind, h1] at h
      exact List.mem_cons_of_mem _ (ih h)

/-- C9: `readable`, `writable` and `accept_conn` on a token absent from the
pending table return immediately with the engine state unchanged. -/
theorem absent_token_ops_are_noops (net : TcpNetwork) (tok : Nat)
    (inputR : Except ErrKind (List Nat)) (inputW : Except ErrKind Nat)
    (h : mapFind tok net.pending_connections = none) :
    net.readable tok inputR = some net
    ∧ net.writable tok inputW = net
    ∧ net.accept_conn tok = some net := by
  refine ⟨?_, ?_, ?_⟩
  · simp [TcpNetwork.readable, h]
  · simp [TcpNetwork.writable, h]
  · simp [TcpNetwork.accept_conn, h]

/-- Example state with one pending connection at token 5. -/
def exNet1 : TcpNetwork :=
  { pending_connections := [(5, TcpConn.new 5)],
    registered := [(5, Readiness.r)],
    current_token := "n", current_value := 7,
    reader_count := 2, reader_channel_index := 0,
    dispatched := [], events := [] }

theorem absent_token_ops_are_noops_witness :
    mapFind 9 exNet1.pending_connections = none
    ∧ (exNet1.readable 9 (Except.ok [1, 2, 3]) = some exNet1
       ∧ exNet1.writable 9 (Except.ok 4) = exNet1
       ∧ exNet1.accept_conn 9 = some exNet1) :=
  ⟨rfl, absent_token_ops_are_noops exNet1 9 (Except.ok [1, 2, 3]) (Except.ok 4) rfl⟩

theorem scanPending_of_no_match (s : String) (rest : List String) (l : List (Nat × TcpConn))
    (h : ∀ p ∈ l, ∀ cv ∈ p.2.conn_value.head?, cv.token ≠ s) :
    scanPending (s :: rest) l = some 0 := by
  induction l with
  | nil => rfl
  | cons p tail ih =>
    obtain ⟨t, conn⟩ := p
    have htail : ∀ p ∈ tail, ∀ cv ∈ p.2.conn_value.head?, cv.token ≠ s :=
      fun p hp => h p (List.mem_cons_of_mem _ hp)
    cases hcv : conn.conn_value with
    | nil => simpa [scanPending, hcv] using ih htail
    | cons cv cvs =>
      have hne : cv.token ≠ s := by
        apply h (t, conn) (List.mem_cons_self _ _) cv
        simp [hcv]
      simpa [scanPending, hcv, hne] using ih htail

/-- C7: an `AcceptPendingConnection` command with a present, non-empty token
that matches no pending connection's learned identity is a no-op: no panic
and the state (pending table, registrations, cursor, logs) is unchanged. -/
theorem notify_accept_pending_no_match_noop (net : TcpNetwork) (s : String)
    (socks : List Nat) (evs : List Event)
    (_hs : s ≠ "")
    (h : ∀ p ∈ net.pending_connections, ∀ cv ∈ p.2.conn_value.head?, cv.token ≠ s) :
    net.notify { cmd := TcpNetworkCMD.acceptPendingConnection,
                 socket := socks, token := [s], event := evs } = some net := by
  simp [TcpNetwork.notify, scanPending_of_no_match s [] net.pending_connections h]

/-- Example state with a pending connection whose learned identity token is
`"b"`. -/
def exNet2 : TcpNetwork :=
  { pending_connections :=
      [(5, { TcpConn.new 5 with conn_value := [⟨5, "b", "12"⟩] })],
    registered := [(5, Readiness.r)],
    current_token := "n", current_value := 7,
    reader_count := 2, reader_channel_index := 0,
    dispatched := [], events := [] }

theorem notify_accept_pending_no_match_noop_witness :
    ("z" ≠ "" ∧ (∀ p ∈ exNet2.pending_connections,
        ∀ cv ∈ p.2.conn_value.head?, cv.token ≠ "z"))
    ∧ exNet2.notify
        { cmd := TcpNetworkCMD.acceptPendingConnection,
          socket := [], token := ["z"], event := [] } = some exNet2 :=
  ⟨⟨by decide, by decide⟩,
    notify_accept_pending_no_match_noop exNet2 "z" [] [] (by decide) (by decide)⟩

theorem scanPending_nil_tokens_panics (l : List (Nat × TcpConn))
    (h : ∃ p ∈ l, p.2.conn_value ≠ []) : scanPending [] l = none := by
  induction l with
  | nil => simp at h
  | cons p tail ih =>
    obtain ⟨t, conn⟩ := p
    cases hcv : conn.conn_value with
    | nil =>
      obtain ⟨q, hq, hqv⟩ := h
      rcases List.mem_cons.mp hq with rfl | hq2
      · exact absurd hcv hqv
      · simpa [scanPending, hcv] using ih ⟨q, hq2, hqv⟩
    | cons cv cvs => simp [scanPending, hcv]

/-- C10: an `AcceptPendingConnection` command with an empty token list
panics (out-of-bounds index on `command.token[0]`) as soon as some pending
connection has a non-empty learned identity. -/
theorem notify_accept_pending_empty_tokens_panics (net : TcpNetwork)
    (socks : List Nat) (evs : List Event)
    (h : ∃ p ∈ net.pending_connections, p.2.conn_value ≠ []) :
    net.notify { cmd := TcpNetworkCMD.acceptPendingConnection,
                 socket := socks, token := [], event := evs } = none := by
  simp [TcpNetwork.notify, scanPending_nil_tokens_panics net.pending_connections h]

theorem notify_accept_pending_empty_tokens_panics_witness :
    (∃ p ∈ exNet2.pending_connections, p.2.conn_value ≠ [])
    ∧ exNet2.notify
        { cmd := TcpNetworkCMD.acceptPendingConnection,
          socket := [], token := [], event := [] } = none :=
  ⟨⟨(5, { TcpConn.new 5 with conn_value := [⟨5, "b", "12"⟩] }), by decide, by decide⟩,
    notify_accept_pending_empty_tokens_panics exNet2 [] []
      ⟨(5, { TcpConn.new 5 with conn_value := [⟨5, "b", "12"⟩] }), by decide, by decide⟩⟩

/-- State whose single pending connection (token 5) has already read its
version field (`api_version = 1`) and is waiting for the identity payload. -/
def exNetIdStage : TcpNetwork :=
  { pending_connections := [(5, { TcpConn.new 5 with api_version := 1 })],
    registered := [(5, Readiness.r)],
    current_token := "n", current_value := 7,
    reader_count := 2, reader_channel_index := 0,
    dispatched := [], events := [] }

/-- C1: during the version read a `WouldBlock` error re-inserts the
envelope (second conjunct), but during the identity-payload read the code
treats `WouldBlock` like any hard error and drops the envelope from the
pending table (first conjunct), contrary to the claim. -/
theorem readable_wouldBlock_drops_at_identity_stage :
    exNetIdStage.readable 5 (Except.error ErrKind.wouldBlock)
      = some { exNetIdStage with pending_connections := [] }
    ∧ exNet1.readable 5 (Except.error ErrKind.wouldBlock) = some exNet1 :=
  ⟨rfl, rfl⟩

/-- The spec-side decoder of the handshake wire format:
`[4-byte big-endian version][4-byte big-endian payload length]
[UTF-8 token, separator byte, decimal ASCII value]`. -/
def decodeHandshakeFrame (bs : List Nat) : Option (String × Nat) :=
  if bs.length < 8 then none
  else if be32 (bs.take 4) = CURRENT_API_VERSION
          ∧ (bs.drop 8).length = be32 ((bs.drop 4).take 4) then
    match splitAtByte 124 (bs.drop 8) with
    | none => none
    | some (tb, vb) =>
      match utf8DecodeString tb, parseDecimal vb with
      | some tok, some v => some (tok, v)
      | _, _ => none
  else none

/-- C4: the handshake frame is exactly version 1 (big-endian u32), the
payload length (big-endian u32), and the payload
`UTF-8 token ++ separator ++ decimal value`; decoding such a frame recovers
`(token, value)` exactly. -/
theorem handshakeFrame_layout_and_roundtrip (token : String) (value : Nat)
    (hsep : ∀ c ∈ token.data, c ≠ '|')
    (hlen : (tokenValueBytes token value).length < 4294967296) :
    handshakeFrame token value
      = u32be 1 ++ u32be (utf8Bytes token ++ [124] ++ decBytes value).length
        ++ (utf8Bytes token ++ [124] ++ decBytes value)
    ∧ decodeHandshakeFrame (handshakeFrame token value) = some (token, value) := by
  constructor
  · rfl
  · have hsplit : splitAtByte 124 (tokenValueBytes token value)
        = some (utf8Bytes token, decBytes value) := by
      have : tokenValueBytes token value
          = utf8Bytes token ++ 124 :: decBytes value := by
        simp [tokenValueBytes]
      rw [this]
      exact splitAtByte_append 124 _ _ (sep_not_mem_utf8Bytes token hsep)
    have hframe : handshakeFrame token value
        = u32be CURRENT_API_VERSION
          ++ (u32be (tokenValueBytes token value).length ++ tokenValueBytes token value) := by
      simp [handshakeFrame]
    have hlen8 : ¬((handshakeFrame token value).length < 8) := by
      rw [hframe]
      simp only [List.length_append, length_u32be]
      omega
    have htake4 : (handshakeFrame token value).take 4 = u32be CURRENT_API_VERSION := by
      rw [hframe]
      exact List.take_left' (length_u32be _)
    have hdrop4 : (handshakeFrame token value).drop 4
        = u32be (tokenValueBytes token value).length ++ tokenValueBytes token value := by
      rw [hframe]
      exact List.drop_left' (length_u32be _)
    have hdrop8 : (handshakeFrame token value).drop 8 = tokenValueBytes token value := by
      have : (handshakeFrame token value).drop 8 = ((handshakeFrame token value).drop 4).drop 4 := by
        rw [List.drop_drop]
      rw [this, hdrop4]
      exact List.drop_left' (length_u32be _)
    rw [decodeHandshakeFrame, if_neg hlen8]
    rw [htake4, hdrop4, hdrop8]
    rw [List.take_left' (length_u32be _)]
    rw [if_pos ⟨be32_u32be CURRENT_API_VERSION (by decide), (be32_u32be _ hlen).symm⟩]
    rw [hsplit]
    simp only [utf8DecodeString_utf8Bytes, parseDecimal_decBytes]

theorem handshakeFrame_layout_and_roundtrip_witness :
    ((∀ c ∈ ("ab" : String).data, c ≠ '|')
      ∧ (tokenValueBytes "ab" 10).length < 4294967296)
    ∧ decodeHandshakeFrame (handshakeFrame "ab" 10) = some ("ab", 10) :=
  ⟨⟨by decide, by decide⟩,
    (handshakeFrame_layout_and_roundtrip "ab" 10 (by decide) (by decide)).2⟩

/-! C6: the writable path. -/

theorem flushQueue_flatten (q : List (List Nat)) (n : Nat) :
    (flushQueue q n).flatten = q.flatten.drop n := by
  induction q generalizing n with
  | nil => simp [flushQueue]
  | cons b bs ih =>
    by_cases h : b.length ≤ n
    · simp only [flushQueue, h, if_true, List.flatten_cons, List.drop_append_eq_append_drop,
        List.drop_of_length_le h, List.nil_append, ih]
    · simp only [flushQueue, h, if_false, List.flatten_cons, List.drop_append_eq_append_drop]
      have : n - b.length = 0 := by omega
      simp [this]

theorem flushQueue_isEmpty_iff (q : List (List Nat)) (n : Nat) :
    (flushQueue q n).isEmpty = true ↔ q.flatten.length ≤ n := by
  induction q generalizing n with
  | nil => simp [flushQueue]
  | cons b bs ih =>
    by_cases h : b.length ≤ n
    · simp only [flushQueue, h, if_true, List.flatten_cons, List.length_append, ih]
      omega
    · simp only [flushQueue, h, if_false, List.flatten_cons, List.length_append]
      constructor
      · intro hh
        simp [List.isEmpty_iff] at hh
      · intro hh
        omega

/-- C6: `writable(id)` on a pending connection flushes the write queue as
far as the socket accepts: a full flush re-registers read-only readiness
and keeps the envelope pending with an empty queue; a partial flush keeps
the envelope pending with exactly the unflushed remainder (in order, as the
flatten/drop equation states) and leaves the write-readiness registration
untouched; a hard write error removes the envelope from the table. -/
theorem writable_flushes_reregisters_or_closes (net : TcpNetwork) (tok : Nat)
    (conn : TcpConn) (n : Nat)
    (hfind : mapFind tok net.pending_connections = some conn)
    (hreg : mapFind tok net.registered = some Readiness.rw) :
    (mapFind tok (net.writable tok (Except.error ErrKind.other)).pending_connections
      = none)
    ∧ ((flushQueue conn.write_queue n).flatten = conn.write_queue.flatten.drop n)
    ∧ (conn.write_queue.flatten.length ≤ n →
        net.writable tok (Except.ok n)
          = { net with
              pending_connections :=
                mapInsert tok { conn with write_queue := flushQueue conn.write_queue n }
                  (mapRemove tok net.pending_connections),
              registered := mapInsert tok Readiness.r net.registered }
        ∧ mapFind tok (net.writable tok (Except.ok n)).registered = some Readiness.r)
    ∧ (¬(conn.write_queue.flatten.length ≤ n) →
        mapFind tok (net.writable tok (Except.ok n)).pending_connections
          = some { conn with write_queue := flushQueue conn.write_queue n }
        ∧ mapFind tok (net.writable tok (Except.ok n)).registered
          = some Readiness.rw) := by
  refine ⟨?_, flushQueue_flatten conn.write_queue n, ?_, ?_⟩
  · simp [TcpNetwork.writable, hfind, mapFind_mapRemove_self]
  · intro hdone
    have hq : (flushQueue conn.write_queue n).isEmpty = true :=
      (flushQueue_isEmpty_iff conn.write_queue n).mpr hdone
    constructor
    · simp [TcpNetwork.writable, hfind, TcpConn.flush_write_queue, hq]
    · simp [TcpNetwork.writable, hfind, TcpConn.flush_write_queue, hq,
        mapFind_mapInsert_self]
  · intro hpart
    have hq : (flushQueue conn.write_queue n).isEmpty = false := by
      rcases hb : (flushQueue conn.write_queue n).isEmpty with _ | _
      · rfl
      · exact absurd ((flushQueue_isEmpty_iff conn.write_queue n).mp hb) hpart
    constructor
    · simp [TcpNetwork.writable, hfind, TcpConn.flush_write_queue, hq,
        mapFind_mapInsert_self]
    · simp only [TcpNetwork.writable, hfind, TcpConn.flush_write_queue, hq]
      simpa [hq] using hreg

/-- State for the spec's flush scenario: one pending connection whose write
queue holds a 10-byte and a 20-byte buffer, registered read-write. -/
def exNetWq : TcpNetwork :=
  { pending_connections :=
      [(5, { TcpConn.new 5 with
              write_queue := [List.replicate 10 1, List.replicate 20 2] })],
    registered := [(5, Readiness.rw)],
    current_token := "n", current_value := 7,
    reader_count := 2, reader_channel_index := 0,
    dispatched := [], events := [] }

/-! C3: shared round-robin cursor. -/

/-- One worker selection: either an `accept_conn` of a connection present in
the pending table (the call inserts it first, so the selection really
happens), or a public `emit`. -/
inductive DispatchCall
  | acceptCall (tok : Nat) (conn : TcpConn)
  | emitCall (ev : Event) (tokens : List String)

/-- Run a mix of `accept_conn` and `emit` calls, each of which performs
exactly one `get_reader` selection. -/
def TcpNetwork.runDispatchCalls (net : TcpNetwork) : List DispatchCall → Option TcpNetwork
  | [] => some net
  | DispatchCall.acceptCall tok conn :: rest =>
    match ({ net with pending_connections :=
              mapInsert tok conn net.pending_connections }).accept_conn tok with
    | none => none
    | some n2 => n2.runDispatchCalls rest
  | DispatchCall.emitCall ev tokens :: rest =>
    match net.emit ev tokens with
    | none => none
    | some n2 => n2.runDispatchCalls rest

theorem succ_mod_eq (K n : Nat) (hK : K ≠ 0) : (n + 1) % K = (n % K + 1) % K := by
  by_cases h1 : K = 1
  · subst h1
    simp [Nat.mod_one]
  · rw [Nat.add_mod n 1 K, Nat.mod_eq_of_lt (show 1 < K by omega)]

theorem norm_cursor_succ (K n : Nat) (hK : K ≠ 0) :
    (if K ≤ n % K + 1 then 0 else n % K + 1) = (n + 1) % K := by
  have h1 : n % K < K := Nat.mod_lt _ (Nat.pos_of_ne_zero hK)
  have h2 : (n + 1) % K = (n % K + 1) % K := succ_mod_eq K n hK
  by_cases h3 : n % K + 1 = K
  · rw [h2, h3, Nat.mod_self]
    simp
  · have h4 : n % K + 1 < K := by omega
    rw [h2, Nat.mod_eq_of_lt h4, if_neg (Nat.not_le.mpr h4)]

/-- Effect of one `emit` on the cursor and the dispatch log. -/
theorem emit_cursor_step (net : TcpNetwork) (ev : Event) (tokens : List String)
    (net2 : TcpNetwork) (hK : net.reader_count ≠ 0)
    (h : net.emit ev tokens = some net2) :
    net2.reader_count = net.reader_count
    ∧ net2.reader_channel_index
        = (if net.reader_count ≤ net.reader_channel_index then 0
           else net.reader_channel_index) + 1
    ∧ net2.dispatched.map (fun d => d.readerIdx)
        = net.dispatched.map (fun d => d.readerIdx)
          ++ [if net.reader_count ≤ net.reader_channel_index then 0
              else net.reader_channel_index]
    ∧ net2.dispatched.length = net.dispatched.length + 1 := by
  simp only [TcpNetwork.emit, TcpNetwork.get_reader, hK, if_false, ge_iff_le,
    Option.map_some', Option.some.injEq] at h
  subst h
  refine ⟨rfl, rfl, ?_, ?_⟩ <;> simp

/-- Effect of one `accept_conn` of a freshly inserted pending connection on
the cursor and the dispatch log. -/
theorem accept_conn_cursor_step (net : TcpNetwork) (tok : Nat) (conn : TcpConn)
    (net2 : TcpNetwork) (hK : net.reader_count ≠ 0)
    (h : TcpNetwork.accept_conn
          { net with pending_connections :=
              mapInsert tok conn net.pending_connections } tok = some net2) :
    net2.reader_count = net.reader_count
    ∧ net2.reader_channel_index
        = (if net.reader_count ≤ net.reader_channel_index then 0
           else net.reader_channel_index) + 1
    ∧ net2.dispatched.map (fun d => d.readerIdx)
        = net.dispatched.map (fun d => d.readerIdx)
          ++ [if net.reader_count ≤ net.reader_channel_index then 0
              else net.reader_channel_index]
    ∧ net2.dispatched.length = net.dispatched.length + 1 := by
  simp only [TcpNetwork.accept_conn, mapFind_mapInsert_self, TcpNetwork.get_reader,
    hK, if_false, ge_iff_le, Option.map_some', Option.some.injEq] at h
  subst h
  refine ⟨rfl, rfl, ?_, ?_⟩ <;> simp

/-- C3 invariant step: any mix of the two calls keeps the shared cursor in
lock-step with the dispatch log. -/
theorem runDispatchCalls_roundRobin (K : Nat) (hK : K ≠ 0) :
    ∀ (calls : List DispatchCall) (net net' : TcpNetwork),
    net.reader_count = K →
    (if K ≤ net.reader_channel_index then 0
     else net.reader_channel_index) = net.dispatched.length % K →
    net.dispatched.map (fun d => d.readerIdx)
      = (List.range net.dispatched.length).map (fun i => i % K) →
    net.runDispatchCalls calls = some net' →
    net'.dispatched.map (fun d => d.readerIdx)
      = (List.range net'.dispatched.length).map (fun i => i % K)
    ∧ net'.dispatched.length = net.dispatched.length + calls.length := by
  intro calls
  induction calls with
  | nil =>
    intro net net' _ _ hmap hrun
    simp only [TcpNetwork.runDispatchCalls, Option.some.injEq] at hrun
    subst hrun
    exact ⟨hmap, by simp⟩
  | cons call rest ih =>
    intro net net' hcount hcur hmap hrun
    have hKc : net.reader_count ≠ 0 := by omega
    have hrange : (List.range (net.dispatched.length + 1)).map (fun i => i % K)
        = (List.range net.dispatched.length).map (fun i => i % K)
          ++ [net.dispatched.length % K] := by
      rw [List.range_succ]
      simp
    have main : ∀ n2 : TcpNetwork,
        n2.reader_count = net.reader_count →
        n2.reader_channel_index
          = (if net.reader_count ≤ net.reader_channel_index then 0
             else net.reader_channel_index) + 1 →
        n2.dispatched.map (fun d => d.readerIdx)
          = net.dispatched.map (fun d => d.readerIdx)
            ++ [if net.reader_count ≤ net.reader_channel_index then 0
                else net.reader_channel_index] →
        n2.dispatched.length = net.dispatched.length + 1 →
        n2.runDispatchCalls rest = some net' →
        net'.dispatched.map (fun d => d.readerIdx)
          = (List.range net'.dispatched.length).map (fun i => i % K)
        ∧ net'.dispatched.length = net.dispatched.length + (call :: rest).length := by
      intro n2 h1 h2 h3 h4 hrun2
      rw [hcount] at h2 h3
      have := ih n2 net' (h1.trans hcount)
        (by
          rw [h2, hcur, h4]
          exact norm_cursor_succ K net.dispatched.length hK)
        (by rw [h3, h4, hmap, hcur, hrange])
        hrun2
      refine ⟨this.1, ?_⟩
      rw [this.2, h4]
      simp only [List.length_cons]
      omega
    cases call with
    | emitCall ev tokens =>
      rw [TcpNetwork.runDispatchCalls] at hrun
      cases he : net.emit ev tokens with
      | none => rw [he] at hrun; cases hrun
      | some n2 =>
        rw [he] at hrun
        obtain ⟨h1, h2, h3, h4⟩ := emit_cursor_step net ev tokens n2 hKc he
        exact main n2 h1 h2 h3 h4 hrun
    | acceptCall tok conn =>
      rw [TcpNetwork.runDispatchCalls] at hrun
      cases he : TcpNetwork.accept_conn
          { net with pending_connections :=
              mapInsert tok conn net.pending_connections } tok with
      | none => rw [he] at hrun; cases hrun
      | some n2 =>
        rw [he] at hrun
        obtain ⟨h1, h2, h3, h4⟩ := accept_conn_cursor_step net tok conn n2 hKc he
        exact main n2 h1 h2 h3 h4 hrun

/-- C3: for a worker pool of size `K ≥ 1`, any mix of `accept_conn`
handoffs and `emit` event dispatches starting from a fresh engine chooses
worker indices `0, 1, ..., K-1, 0, 1, ...` in order: the `i`-th selection
is `i % K`, because the round-robin cursor is shared between both call
kinds. -/
theorem roundRobin_indices (K : Nat) (net net' : TcpNetwork)
    (calls : List DispatchCall)
    (hK : 1 ≤ K)
    (hcount : net.reader_count = K)
    (hidx : net.reader_channel_index = 0)
    (hdisp : net.dispatched = [])
    (hrun : net.runDispatchCalls calls = some net') :
    net'.dispatched.length = calls.length
    ∧ net'.dispatched.map (fun d => d.readerIdx)
        = (List.range calls.length).map (fun i => i % K) := by
  have hKne : K ≠ 0 := by omega
  have := runDispatchCalls_roundRobin K hKne calls net net' hcount
    (by
      rw [hidx, hdisp]
      simp only [List.length_nil, Nat.zero_mod]
      rw [if_neg (by omega)])
    (by rw [hdisp]; simp)
    hrun
  have hlen : net'.dispatched.length = calls.length := by
    rw [this.2, hdisp]
    simp
  exact ⟨hlen, by rw [this.1, hlen]⟩

/-- Fresh engine state: empty tables, two workers, cursor 0. -/
def exNet0 : TcpNetwork :=
  { pending_connections := [], registered := [],
    current_token := "n", current_value := 7,
    reader_count := 2, reader_channel_index := 0,
    dispatched := [], events := [] }

/-- A mix of `emit` and `accept_conn` calls. -/
def exCalls : List DispatchCall :=
  [DispatchCall.emitCall Event.default [],
   DispatchCall.acceptCall 5 (TcpConn.new 5),
   DispatchCall.emitCall Event.default ["x"]]

theorem roundRobin_indices_witness :
    ((exNet0.runDispatchCalls exCalls).getD exNet0).dispatched.length = exCalls.length
    ∧ ((exNet0.runDispatchCalls exCalls).getD exNet0).dispatched.map
        (fun d => d.readerIdx)
      = (List.range exCalls.length).map (fun i => i % 2) :=
  roundRobin_indices 2 exNet0 ((exNet0.runDispatchCalls exCalls).getD exNet0) exCalls
    (by omega) rfl rfl rfl rfl

/-! C5: inbound acceptance versus outbound adoption. -/

theorem acceptable_find :
    ∀ (socks : List Nat) (net : TcpNetwork) (s : Nat),
    (s ∈ socks ∨ (mapFind s net.pending_connections
        = some { TcpConn.new s with from_server := true }
      ∧ mapFind s net.registered = some Readiness.r)) →
    mapFind s (net.acceptable socks).pending_connections
      = some { TcpConn.new s with from_server := true }
    ∧ mapFind s (net.acceptable socks).registered = some Readiness.r := by
  intro socks
  induction socks with
  | nil =>
    intro net s h
    rcases h with h | h
    · simp at h
    · simpa [TcpNetwork.acceptable] using h
  | cons x rest ih =>
    intro net s h
    have hstep : net.acceptable (x :: rest)
        = (net.add_pending_conn x false).acceptable rest := rfl
    rw [hstep]
    apply ih
    by_cases hsx : s = x
    · subst hsx
      right
      constructor
      · simp [TcpNetwork.add_pending_conn, mapFind_mapInsert_self]
      · simp [TcpNetwork.add_pending_conn, mapFind_mapInsert_self]
    · rcases h with h | h
      · rcases List.mem_cons.mp h with h1 | h1
        · exact absurd h1 hsx
        · exact Or.inl h1
      · right
        refine ⟨?_, ?_⟩
        · exact (mapFind_mapInsert_ne x s _ _ hsx).trans h.1
        · exact (mapFind_mapInsert_ne x s _ _ hsx).trans h.2

/-- C5: every socket the accept loop admits becomes a pending envelope with
`from_server = true`, an empty write queue (the peer speaks first) and a
read-only registration; every socket adopted through the
`HandleClientConnection` command becomes a pending envelope with
`from_server = false`, the local handshake frame already queued, and a
read-write registration. -/
theorem accepted_and_adopted_envelopes (net : TcpNetwork) (socks : List Nat)
    (s : Nat) (sockAd : Nat) (cmdTokens : List String) (evs : List Event)
    (hs : s ∈ socks) :
    (mapFind s (net.acceptable socks).pending_connections
        = some { TcpConn.new s with from_server := true }
     ∧ mapFind s (net.acceptable socks).registered = some Readiness.r)
    ∧ (net.notify { cmd := TcpNetworkCMD.handleClientConnection,
                    socket := [sockAd], token := cmdTokens, event := evs }
        = some (net.add_pending_conn sockAd true)
      ∧ mapFind sockAd (net.add_pending_conn sockAd true).pending_connections
          = some { TcpConn.new sockAd with
                   from_server := false,
                   write_queue := [handshakeFrame net.current_token net.current_value] }
      ∧ mapFind sockAd (net.add_pending_conn sockAd true).registered
          = some Readiness.rw) := by
  refine ⟨acceptable_find socks net s (Or.inl hs), ?_, ?_, ?_⟩
  · simp [TcpNetwork.notify]
  · simp [TcpNetwork.add_pending_conn, TcpNetwork.write_handshake_info,
      TcpConn.add_writable_data, TcpConn.new, mapFind_mapInsert_self]
  · simp [TcpNetwork.add_pending_conn, mapFind_mapInsert_self]

theorem accepted_and_adopted_envelopes_witness :
    (5 ∈ [5, 7]
      ∧ mapFind 5 (exNet0.acceptable [5, 7]).pending_connections
          = some { TcpConn.new 5 with from_server := true }
      ∧ mapFind 5 (exNet0.acceptable [5, 7]).registered = some Readiness.r)
    ∧ (mapFind 9 (exNet0.add_pending_conn 9 true).pending_connections
        = some { TcpConn.new 9 with
                 from_server := false,
                 write_queue := [handshakeFrame "n" 7] }
      ∧ mapFind 9 (exNet0.add_pending_conn 9 true).registered = some Readiness.rw) :=
  ⟨⟨by decide,
    (accepted_and_adopted_envelopes exNet0 [5, 7] 5 9 [] [] (by decide)).1⟩,
   ⟨(accepted_and_adopted_envelopes exNet0 [5, 7] 5 9 [] [] (by decide)).2.2.1,
    (accepted_and_adopted_envelopes exNet0 [5, 7] 5 9 [] [] (by decide)).2.2.2⟩⟩

theorem writable_flushes_reregisters_or_closes_witness :
    mapFind 5 (exNetWq.writable 5 (Except.error ErrKind.other)).pending_connections = none
    ∧ (mapFind 5 (exNetWq.writable 5 (Except.ok 15)).pending_connections
        = some { TcpConn.new 5 with
                 write_queue := flushQueue [List.replicate 10 1, List.replicate 20 2] 15 }
      ∧ mapFind 5 (exNetWq.writable 5 (Except.ok 15)).registered = some Readiness.rw) :=
  ⟨(writable_flushes_reregisters_or_closes exNetWq 5
      { TcpConn.new 5 with write_queue := [List.replicate 10 1, List.replicate 20 2] }
      15 rfl rfl).1,
   (writable_flushes_reregisters_or_closes exNetWq 5
      { TcpConn.new 5 with write_queue := [List.replicate 10 1, List.replicate 20 2] }
      15 rfl rfl).2.2.2 (by decide)⟩

/-! C2: identity completion. -/

theorem read_token_value_preserves (c : TcpConn) (avail : List Nat) (c2 : TcpConn)
    (t v : String) (d : Bool)
    (h : c.read_token_value avail = Except.ok (c2, t, v, d)) :
    c2.from_server = c.from_server ∧ c2.conn_value = c.conn_value := by
  unfold TcpConn.read_token_value at h
  dsimp only [] at h
  split at h
  · injection h with h2
    cases h2
    exact ⟨rfl, rfl⟩
  · split at h
    · injection h with h2
      cases h2
      exact ⟨rfl, rfl⟩
    · split at h
      · cases h
      · split at h
        · injection h with h2
          cases h2
          exact ⟨rfl, rfl⟩
        · cases h

/-- Inbound pending connection at token 5 (freshly accepted, so
`from_server = true`). -/
def exNetInbound : TcpNetwork :=
  { pending_connections := [(5, { TcpConn.new 5 with from_server := true })],
    registered := [(5, Readiness.r)],
    current_token := "n", current_value := 7,
    reader_count := 2, reader_channel_index := 0,
    dispatched := [], events := [] }

/-- Adopted outbound pending connection at token 5 (`from_server = false`,
local handshake already queued). -/
def exNetOutbound : TcpNetwork :=
  { pending_connections :=
      [(5, { TcpConn.new 5 with write_queue := [handshakeFrame "n" 7] })],
    registered := [(5, Readiness.rw)],
    current_token := "n", current_value := 7,
    reader_count := 2, reader_channel_index := 0,
    dispatched := [], events := [] }

/-- The handshake a client sends with version 1, length 3 and payload
`"a|1"`. -/
def goodFrameBytes : List Nat := [0, 0, 0, 1, 0, 0, 0, 3, 97, 124, 49]

/-- The same bytes but with length field 9, as the spec scenario words it. -/
def badFrameBytes : List Nat := [0, 0, 0, 1, 0, 0, 0, 9, 97, 124, 49]

/-- C2 counterexample: on the claim's own input (version 1, length field 9,
payload `"a|1"`) the identity read never completes (only 3 of the announced
9 payload bytes exist), so no on-pending-connection event is emitted and no
deregistration happens — and the partial-read path even drops the
envelope. -/
theorem readable_length9_scenario_fails :
    ((exNetInbound.readable 5 (Except.ok badFrameBytes)).getD exNetInbound).events = []
    ∧ mapFind 5 ((exNetInbound.readable 5
        (Except.ok badFrameBytes)).getD exNetInbound).registered = some Readiness.r
    ∧ mapFind 5 ((exNetInbound.readable 5
        (Except.ok badFrameBytes)).getD exNetInbound).pending_connections = none := by
  refine ⟨rfl, rfl, rfl⟩

/-- C2 (amended: the scenario's length field must be 3, the payload length):
when `readable(id)` completes the identity payload the engine deregisters
the socket; on a `from_server` envelope it emits exactly one
on-pending-connection event whose data is the peer value string and whose
from field is the peer token, keeping the envelope pending; otherwise it
immediately calls `accept_conn(id)`.  A client sending version=1, length=3,
payload `"a|1"` gets, on the confirmation side, event `("1", from "a")`
with the socket deregistered and the envelope kept; on the other side an
immediate dispatch to worker 0 on the first call. -/
theorem readable_identity_completion (net : TcpNetwork) (tok : Nat)
    (conn : TcpConn) (avail : List Nat) (conn3 : TcpConn) (ptok pval : String)
    (hfind : mapFind tok net.pending_connections = some conn)
    (hver : conn.api_version ≠ 0)
    (hread : conn.read_token_value avail = Except.ok (conn3, ptok, pval, true)) :
    ((conn.from_server = true →
      net.readable tok (Except.ok avail)
        = some { net with
            pending_connections :=
              mapInsert tok (conn3.add_conn_value tok ptok pval)
                (mapRemove tok net.pending_connections),
            registered := mapRemove tok net.registered,
            events := net.events
              ++ [{ event := { name := EVENT_ON_PENDING_CONNECTION,
                               data := utf8Bytes pval, ev_from := ptok } }] })
     ∧ (conn.from_server = false →
      net.readable tok (Except.ok avail)
        = TcpNetwork.accept_conn
            { net with
              pending_connections :=
                mapInsert tok (conn3.add_conn_value tok ptok pval)
                  (mapRemove tok net.pending_connections),
              registered := mapRemove tok net.registered } tok))
    ∧ (((exNetInbound.readable 5 (Except.ok goodFrameBytes)).getD exNetInbound).events.map
          (fun m => (m.event.name, m.event.data, m.event.ev_from))
        = [(EVENT_ON_PENDING_CONNECTION, [49], "a")]
      ∧ mapFind 5 ((exNetInbound.readable 5
          (Except.ok goodFrameBytes)).getD exNetInbound).registered = none
      ∧ (mapFind 5 ((exNetInbound.readable 5
          (Except.ok goodFrameBytes)).getD exNetInbound).pending_connections).isSome
          = true)
    ∧ (((exNetOutbound.readable 5 (Except.ok goodFrameBytes)).getD exNetOutbound).dispatched.map
          (fun d => (d.readerIdx, d.cmd))
        = [(0, TcpReaderCMDKind.handleConnection)]
      ∧ mapFind 5 ((exNetOutbound.readable 5
          (Except.ok goodFrameBytes)).getD exNetOutbound).pending_connections = none) := by
  obtain ⟨hfs, _⟩ := read_token_value_preserves conn avail conn3 ptok pval true hread
  refine ⟨⟨?_, ?_⟩, ⟨by decide, rfl, rfl⟩, ⟨by decide, rfl⟩⟩
  · intro hser
    have h4 : (conn3.add_conn_value tok ptok pval).from_server = true := by
      simpa [TcpConn.add_conn_value, hfs] using hser
    simp only [TcpNetwork.readable, hfind, hver, if_false,
      TcpNetwork.readable_stage2, hread, if_true, h4]
  · intro hser
    have h4 : (conn3.add_conn_value tok ptok pval).from_server = false := by
      simpa [TcpConn.add_conn_value, hfs] using hser
    simp only [TcpNetwork.readable, hfind, hver, if_false,
      TcpNetwork.readable_stage2, hread, if_true, h4, Bool.false_eq_true]

/-- Pending connection whose version field is already read, used to witness
the identity-completion theorem. -/
def exConnId : TcpConn := { TcpConn.new 5 with from_server := true, api_version := 1 }

/-- The network holding `exConnId`. -/
def exNetId2 : TcpNetwork :=
  { pending_connections := [(5, exConnId)],
    registered := [(5, Readiness.r)],
    current_token := "n", current_value := 7,
    reader_count := 2, reader_channel_index := 0,
    dispatched := [], events := [] }

/-- The identity payload bytes `length=3, "a|1"`. -/
def availBytes : List Nat := [0, 0, 0, 3, 97, 124, 49]

theorem readable_identity_completion_witness :
    exNetId2.readable 5 (Except.ok availBytes)
      = some { exNetId2 with
          pending_connections :=
            mapInsert 5 (exConnId.add_conn_value 5 "a" "1")
              (mapRemove 5 exNetId2.pending_connections),
          registered := mapRemove 5 exNetId2.registered,
          events := exNetId2.events
            ++ [{ event := { name := EVENT_ON_PENDING_CONNECTION,
                             data := utf8Bytes "1", ev_from := "a" } }] } :=
  ((readable_identity_completion exNetId2 5 exConnId availBytes exConnId "a" "1"
    rfl (by decide) rfl).1).1 rfl

/-! C8: no eviction of an idle half-handshaken connection. -/

theorem mem_mapInsert {α : Type} (p : Nat × α) (k : Nat) (v : α) (m : List (Nat × α))
    (h : p ∈ mapInsert k v m) : p = (k, v) ∨ p ∈ m := by
  induction m with
  | nil => simpa [mapInsert] using h
  | cons q rest ih =>
    obtain ⟨k1, v1⟩ := q
    rw [mapInsert] at h
    split_ifs at h with h1 h2
    · rcases List.mem_cons.mp h with h3 | h3
      · exact Or.inl h3
      · exact Or.inr h3
    · rcases List.mem_cons.mp h with h3 | h3
      · exact Or.inl h3
      · exact Or.inr (List.mem_cons_of_mem _ h3)
    · rcases List.mem_cons.mp h with h3 | h3
      · exact Or.inr (List.mem_cons.mpr (Or.inl h3))
      · rcases ih h3 with h4 | h4
        · exact Or.inl h4
        · exact Or.inr (List.mem_cons_of_mem _ h4)

theorem mem_mapRemove {α : Type} (p : Nat × α) (k : Nat) (m : List (Nat × α))
    (h : p ∈ mapRemove k m) : p ∈ m :=
  List.mem_of_mem_filter h

/-- `net'` has not touched the key `t`: the pending entry and registration
for `t` are unchanged, and every pending entry keyed `t` already existed. -/
def Untouched (t : Nat) (net net' : TcpNetwork) : Prop :=
  mapFind t net'.pending_connections = mapFind t net.pending_connections
  ∧ mapFind t net'.registered = mapFind t net.registered
  ∧ ∀ p ∈ net'.pending_connections, p.1 = t → p ∈ net.pending_connections

theorem untouched_rfl (t : Nat) (net : TcpNetwork) : Untouched t net net :=
  ⟨rfl, rfl, fun _ hp _ => hp⟩

theorem untouched_trans (t : Nat) (a b c : TcpNetwork)
    (h1 : Untouched t a b) (h2 : Untouched t b c) : Untouched t a c :=
  ⟨h2.1.trans h1.1, h2.2.1.trans h1.2.1,
   fun p hp hpt => h1.2.2 p (h2.2.2 p hp hpt) hpt⟩

theorem untouched_add_pending (t : Nat) (net : TcpNetwork) (s : Nat) (fc : Bool)
    (hs : s ≠ t) : Untouched t net (net.add_pending_conn s fc) := by
  refine ⟨?_, ?_, ?_⟩
  · exact mapFind_mapInsert_ne s t _ _ (Ne.symm hs)
  · exact mapFind_mapInsert_ne s t _ _ (Ne.symm hs)
  · intro p hp hpt
    rcases mem_mapInsert p s _ _ hp with h | h
    · rw [h] at hpt
      exact absurd hpt hs
    · exact h

theorem untouched_acceptable (t : Nat) :
    ∀ (socks : List Nat) (net : TcpNetwork), t ∉ socks →
      Untouched t net (net.acceptable socks) := by
  intro socks
  induction socks with
  | nil => intro net _; exact untouched_rfl t net
  | cons x rest ih =>
    intro net h
    have hx : x ≠ t := fun hh => h (hh ▸ List.mem_cons_self x rest)
    have h2 : t ∉ rest := fun hh => h (List.mem_cons_of_mem _ hh)
    exact untouched_trans t net _ _
      (untouched_add_pending t net x false hx)
      (ih (net.add_pending_conn x false) h2)

theorem untouched_close (t : Nat) (net : TcpNetwork) (tok : Nat) (ht : tok ≠ t) :
    Untouched t net (net.close_connection tok) :=
  ⟨mapFind_mapRemove_ne tok t _ (Ne.symm ht), rfl,
   fun p hp _ => mem_mapRemove p tok _ hp⟩

theorem untouched_accept_conn (t : Nat) (net : TcpNetwork) (tok : Nat)
    (net' : TcpNetwork) (ht : tok ≠ t)
    (h : net.accept_conn tok = some net') : Untouched t net net' := by
  rw [TcpNetwork.accept_conn] at h
  cases hf : mapFind tok net.pending_connections with
  | none =>
    rw [hf] at h
    cases h
    exact untouched_rfl t net
  | some conn =>
    rw [hf] at h
    by_cases hc : net.reader_count = 0
    · simp [TcpNetwork.get_reader, hc] at h
    · simp only [TcpNetwork.get_reader, hc, if_false, ge_iff_le, Option.map_some',
        Option.some.injEq] at h
      subst h
      refine ⟨?_, ?_, ?_⟩
      · exact mapFind_mapRemove_ne tok t _ (Ne.symm ht)
      · exact mapFind_mapRemove_ne tok t _ (Ne.symm ht)
      · intro p hp hpt
        exact mem_mapRemove p tok _ hp

theorem untouched_writable (t : Nat) (net : TcpNetwork) (tok : Nat)
    (input : Except ErrKind Nat) (ht : tok ≠ t) :
    Untouched t net (net.writable tok input) := by
  rw [TcpNetwork.writable]
  cases hf : mapFind tok net.pending_connections with
  | none => exact untouched_rfl t net
  | some conn =>
    cases input with
    | error k =>
      exact ⟨mapFind_mapRemove_ne tok t _ (Ne.symm ht), rfl,
        fun p hp _ => mem_mapRemove p tok _ hp⟩
    | ok n =>
      show Untouched t net
        (if (conn.flush_write_queue n).2 = true then _ else _)
      split
      · refine ⟨?_, ?_, ?_⟩
        · exact (mapFind_mapInsert_ne tok t _ _ (Ne.symm ht)).trans
            (mapFind_mapRemove_ne tok t _ (Ne.symm ht))
        · exact mapFind_mapInsert_ne tok t _ _ (Ne.symm ht)
        · intro p hp hpt
          rcases mem_mapInsert p tok _ _ hp with h | h
          · rw [h] at hpt
            exact absurd hpt ht
          · exact mem_mapRemove p tok _ h
      · refine ⟨?_, ?_, ?_⟩
        · exact (mapFind_mapInsert_ne tok t _ _ (Ne.symm ht)).trans
            (mapFind_mapRemove_ne tok t _ (Ne.symm ht))
        · rfl
        · intro p hp hpt
          rcases mem_mapInsert p tok _ _ hp with h | h
          · rw [h] at hpt
            exact absurd hpt ht
          · exact mem_mapRemove p tok _ h

theorem untouched_stage2 (t : Nat) (net1 : TcpNetwork) (tok : Nat) (conn : TcpConn)
    (input : Except ErrKind (List Nat)) (net' : TcpNetwork) (ht : tok ≠ t)
    (h : net1.readable_stage2 tok conn input = some net') :
    Untouched t net1 net' := by
  rw [TcpNetwork.readable_stage2.eq_def] at h
  cases input with
  | error k =>
    cases h
    exact untouched_rfl t net1
  | ok avail =>
    dsimp only [] at h
    cases hr : conn.read_token_value avail with
    | error k =>
      rw [hr] at h
      cases h
      exact untouched_rfl t net1
    | ok quad =>
      obtain ⟨conn3, ptok, pval, d⟩ := quad
      rw [hr] at h
      cases d with
      | false =>
        cases h
        exact untouched_rfl t net1
      | true =>
        simp only [if_true] at h
        by_cases hfs : (conn3.add_conn_value tok ptok pval).from_server = true
        · rw [if_pos hfs] at h
          cases h
          refine ⟨?_, ?_, ?_⟩
          · exact mapFind_mapInsert_ne tok t _ _ (Ne.symm ht)
          · exact mapFind_mapRemove_ne tok t _ (Ne.symm ht)
          · intro p hp hpt
            rcases mem_mapInsert p tok _ _ hp with h2 | h2
            · rw [h2] at hpt
              exact absurd hpt ht
            · exact h2
        · rw [if_neg hfs] at h
          have step1 : Untouched t net1
              { net1 with
                registered := mapRemove tok net1.registered,
                pending_connections :=
                  mapInsert tok (conn3.add_conn_value tok ptok pval)
                    net1.pending_connections } := by
            refine ⟨?_, ?_, ?_⟩
            · exact mapFind_mapInsert_ne tok t _ _ (Ne.symm ht)
            · exact mapFind_mapRemove_ne tok t _ (Ne.symm ht)
            · intro p hp hpt
              rcases mem_mapInsert p tok _ _ hp with h2 | h2
              · rw [h2] at hpt
                exact absurd hpt ht
              · exact h2
          exact untouched_trans t net1 _ net' step1
            (untouched_accept_conn t _ tok net' ht h)

theorem untouched_readable (t : Nat) (net : TcpNetwork) (tok : Nat)
    (input : Except ErrKind (List Nat)) (net' : TcpNetwork) (ht : tok ≠ t)
    (h : net.readable tok input = some net') : Untouched t net net' := by
  rw [TcpNetwork.readable] at h
  cases hf : mapFind tok net.pending_connections with
  | none =>
    rw [hf] at h
    cases h
    exact untouched_rfl t net
  | some conn =>
    rw [hf] at h
    dsimp only [] at h
    have hrem : Untouched t net
        { net with pending_connections := mapRemove tok net.pending_connections } :=
      ⟨mapFind_mapRemove_ne tok t _ (Ne.symm ht), rfl,
       fun p hp _ => mem_mapRemove p tok _ hp⟩
    have hreins : ∀ c2 : TcpConn, Untouched t net
        { net with pending_connections :=
            mapInsert tok c2 (mapRemove tok net.pending_connections) } := by
      intro c2
      refine ⟨?_, rfl, ?_⟩
      · exact (mapFind_mapInsert_ne tok t _ _ (Ne.symm ht)).trans
          (mapFind_mapRemove_ne tok t _ (Ne.symm ht))
      · intro p hp hpt
        rcases mem_mapInsert p tok _ _ hp with h2 | h2
        · rw [h2] at hpt
          exact absurd hpt ht
        · exact mem_mapRemove p tok _ h2
    by_cases hv : conn.api_version = 0
    · rw [if_pos hv] at h
      cases input with
      | error k =>
        dsimp only [] at h
        by_cases hk : k = ErrKind.wouldBlock
        · rw [if_pos hk] at h
          cases h
          exact hreins conn
        · rw [if_neg hk] at h
          cases h
          exact hrem
      | ok avail =>
        dsimp only [] at h
        by_cases hd : (conn.read_api_version avail).2
        · rw [if_pos hd] at h
          exact untouched_trans t net _ net' hrem
            (untouched_stage2 t _ tok _ (Except.ok []) net' ht h)
        · simp only [hd, Bool.false_eq_true, if_false] at h
          cases h
          exact hreins (conn.read_api_version avail).1
    · rw [if_neg hv] at h
      exact untouched_trans t net _ net' hrem
        (untouched_stage2 t _ tok conn input net' ht h)

theorem scanPending_found (cs : List String) (l : List (Nat × TcpConn)) (ct : Nat)
    (h : scanPending cs l = some ct) (hct : ct ≠ 0) :
    ∃ p ∈ l, p.1 = ct ∧ p.2.conn_value ≠ [] := by
  induction l with
  | nil =>
    rw [scanPending] at h
    cases h
    exact absurd rfl hct
  | cons q rest ih =>
    obtain ⟨tq, conn⟩ := q
    rw [scanPending] at h
    cases hcv : conn.conn_value with
    | nil =>
      rw [hcv] at h
      obtain ⟨p, hp, hp2⟩ := ih h
      exact ⟨p, List.mem_cons_of_mem _ hp, hp2⟩
    | cons cv cvs =>
      rw [hcv] at h
      dsimp only [] at h
      cases cs with
      | nil => cases h
      | cons c0 cs2 =>
        dsimp only [] at h
        by_cases he : cv.token = c0
        · rw [if_pos he] at h
          injection h with h2
          exact ⟨(tq, conn), List.mem_cons_self _ _, h2, by simp [hcv]⟩
        · rw [if_neg he] at h
          obtain ⟨p, hp, hp2⟩ := ih h
          exact ⟨p, List.mem_cons_of_mem _ hp, hp2⟩

/-- The loop event does not target the socket `t`: its readiness token is
not `t`, it adopts no socket with token `t`, and the accept loop yields no
socket with token `t`. -/
def LoopEvent.avoidsTok (t : Nat) : LoopEvent → Prop
  | LoopEvent.cmdEv c =>
    match c.cmd with
    | TcpNetworkCMD.handleClientConnection => ∀ s ∈ c.socket, s ≠ t
    | _ => True
  | LoopEvent.errorHupEv tok => tok ≠ t
  | LoopEvent.readableEv tok _ => tok ≠ t
  | LoopEvent.writableEv tok _ => tok ≠ t
  | LoopEvent.acceptEv socks => t ∉ socks

theorem untouched_notify (t : Nat) (net : TcpNetwork) (cmd : TcpNetworkCommand)
    (net' : TcpNetwork)
    (hempty : ∀ p ∈ net.pending_connections, p.1 = t → p.2.conn_value = [])
    (havoid : (LoopEvent.cmdEv cmd).avoidsTok t)
    (h : net.notify cmd = some net') : Untouched t net net' := by
  rw [TcpNetwork.notify] at h
  cases hcmd : cmd.cmd with
  | handleClientConnection =>
    rw [hcmd] at h
    cases hg : cmd.socket.getLast? with
    | none =>
      rw [hg] at h
      cases h
      exact untouched_rfl t net
    | some s =>
      rw [hg] at h
      cases h
      have hsm : s ∈ cmd.socket := by
        obtain ⟨hne, heq⟩ := List.mem_getLast?_eq_getLast
          (show s ∈ cmd.socket.getLast? from hg)
        rw [heq]
        exact List.getLast_mem hne
      have hsa : ∀ s2 ∈ cmd.socket, s2 ≠ t := by
        have := havoid
        rw [LoopEvent.avoidsTok, hcmd] at this
        exact this
      exact untouched_add_pending t net s true (hsa s hsm)
  | acceptPendingConnection =>
    rw [hcmd] at h
    cases hs : scanPending cmd.token net.pending_connections with
    | none =>
      rw [hs] at h
      cases h
    | some ct =>
      rw [hs] at h
      dsimp only [] at h
      by_cases hct : ct ≠ 0
      · rw [if_pos hct] at h
        obtain ⟨p, hp, hp1, hp2⟩ := scanPending_found cmd.token _ ct hs hct
        have hctt : ct ≠ t := by
          intro hh
          exact hp2 (hempty p hp (hp1.trans hh))
        exact untouched_accept_conn t net ct net' hctt h
      · rw [if_neg hct] at h
        cases h
        exact untouched_rfl t net
  | emitEvent =>
    rw [hcmd] at h
    cases hg : cmd.event.getLast? with
    | none =>
      rw [hg] at h
      cases h
      exact untouched_rfl t net
    | some ev =>
      rw [hg] at h
      dsimp only [] at h
      by_cases hc : net.reader_count = 0
      · simp [TcpNetwork.emit, TcpNetwork.get_reader, hc] at h
      · simp only [TcpNetwork.emit, TcpNetwork.get_reader, hc, if_false, ge_iff_le,
          Option.map_some', Option.some.injEq] at h
        subst h
        exact ⟨rfl, rfl, fun _ hp _ => hp⟩

theorem untouched_loopStep (t : Nat) (net : TcpNetwork) (e : LoopEvent)
    (net' : TcpNetwork)
    (hempty : ∀ p ∈ net.pending_connections, p.1 = t → p.2.conn_value = [])
    (havoid : e.avoidsTok t)
    (h : net.loopStep e = some net') : Untouched t net net' := by
  cases e with
  | cmdEv c => exact untouched_notify t net c net' hempty havoid h
  | errorHupEv tok =>
    rw [TcpNetwork.loopStep] at h
    by_cases h0 : tok = 0
    · rw [if_pos h0] at h
      cases h
    · rw [if_neg h0] at h
      cases h
      exact untouched_close t net tok havoid
  | readableEv tok input =>
    exact untouched_readable t net tok input net' havoid h
  | writableEv tok input =>
    rw [TcpNetwork.loopStep] at h
    cases h
    exact untouched_writable t net tok input havoid
  | acceptEv socks =>
    rw [TcpNetwork.loopStep] at h
    cases h
    exact untouched_acceptable t socks net havoid

/-- C8: the engine never evicts a pending connection on its own
initiative.  For a pending connection at token `t` whose identity has not
been learned (`conn_value = []`, as for a peer that sent fewer than 4
bytes), any sequence of loop events that never targets `t` — no readiness
event for `t`, no error/hangup for `t`, no adopted or accepted socket with
token `t` — leaves its envelope in the pending table and its multiplexer
registration unchanged; the step relation has no clock, so no timeout can
remove it. -/
theorem pending_conn_never_evicted (t : Nat) (conn : TcpConn) (reg : Readiness) :
    ∀ (events : List LoopEvent) (net net' : TcpNetwork),
    mapFind t net.pending_connections = some conn →
    (∀ p ∈ net.pending_connections, p.1 = t → p.2.conn_value = []) →
    mapFind t net.registered = some reg →
    (∀ e ∈ events, e.avoidsTok t) →
    net.loopSteps events = some net' →
    mapFind t net'.pending_connections = some conn
    ∧ mapFind t net'.registered = some reg := by
  intro events
  induction events with
  | nil =>
    intro net net' hfind hempty hreg _ hrun
    rw [TcpNetwork.loopSteps] at hrun
    cases hrun
    exact ⟨hfind, hreg⟩
  | cons e es ih =>
    intro net net' hfind hempty hreg havoid hrun
    rw [TcpNetwork.loopSteps] at hrun
    cases hstep : net.loopStep e with
    | none =>
      rw [hstep] at hrun
      cases hrun
    | some n2 =>
      rw [hstep] at hrun
      have hu := untouched_loopStep t net e n2 hempty
        (havoid e (List.mem_cons_self _ _)) hstep
      exact ih n2 net'
        (hu.1.trans hfind)
        (fun p hp hpt => hempty p (hu.2.2 p hp hpt) hpt)
        (hu.2.1.trans hreg)
        (fun e2 he2 => havoid e2 (List.mem_cons_of_mem _ he2))
        hrun

/-- Events that never target token 5. -/
def exEvents : List LoopEvent :=
  [LoopEvent.readableEv 9 (Except.error ErrKind.other),
   LoopEvent.acceptEv [8],
   LoopEvent.cmdEv { cmd := TcpNetworkCMD.emitEvent, socket := [],
                     token := ["x"], event := [Event.default] },
   LoopEvent.errorHupEv 8,
   LoopEvent.cmdEv { cmd := TcpNetworkCMD.acceptPendingConnection, socket := [],
                     token := ["b"], event := [] }]

theorem pending_conn_never_evicted_witness :
    mapFind 5 ((exNet1.loopSteps exEvents).getD exNet1).pending_connections
      = some (TcpConn.new 5)
    ∧ mapFind 5 ((exNet1.loopSteps exEvents).getD exNet1).registered
      = some Readiness.r :=
  pending_conn_never_evicted 5 (TcpConn.new 5) Readiness.r exEvents exNet1
    ((exNet1.loopSteps exEvents).getD exNet1) rfl
    (by
      intro p hp hpt
      rcases List.mem_cons.mp hp with h | h
      · rw [h]
        rfl
      · simp at h)
    rfl
    (by
      intro e he
      fin_cases he <;> simp [LoopEvent.avoidsTok])
    rfl

end TreeScale
